import Mathlib

/-!
Verification of the url-shortener repository's core components against its
specification: the base62 code encoder, the token-bucket rate limiter, the
read-routing storage gateway, the shortening service, and the validators.
Each Go function is shallowly embedded as an executable Lean definition;
machine integers are modelled as `Nat`/`Int` with explicit reductions
modulo `2 ^ w` where the Go code can overflow or wrap.
-/

namespace UrlShortener

/-! ## Base62 encoder (internal/encoder)

`const alphabet = "0123456789abcdefghijklmnopqrstuvwxyzABCDEFGHIJKLMNOPQRSTUVWXYZ"`
embedded as an explicit character list; `base = uint64(len(alphabet))`. -/

def alphabetStr : String := "0123456789abcdefghijklmnopqrstuvwxyzABCDEFGHIJKLMNOPQRSTUVWXYZ"

def alphaChars : List Char := alphabetStr.toList

def base : Nat := alphaChars.length

/-- Width of Go's `uint64`: all encoder arithmetic is carried out in `uint64`. -/
def W64 : Nat := 2 ^ 64

/-- Loop of Go `Encode`: repeatedly take `num % base` (prepending the digit
character) and continue with `num / base` until the number is zero. -/
def encodeAux (n : Nat) : List Char :=
  if h : n = 0 then []
  else
    have : n / base < n := Nat.div_lt_self (Nat.pos_of_ne_zero h) (by decide)
    encodeAux (n / base) ++ [alphaChars.getD (n % base) ' ']

/-- Go `Encode`: `Encode(0)` yields the alphabet's first character, otherwise
the base62 digits most-significant first. -/
def Encode (n : Nat) : List Char :=
  if n = 0 then [alphaChars.getD 0 ' '] else encodeAux n

/-- Go conversion `byte(char)`: a rune truncated to its low 8 bits. -/
def byteOf (c : Char) : Nat := c.toNat % 256

def alphaBytes : List Nat := alphaChars.map Char.toNat

/-- Loop of Go `indexOf` over the alphabet's bytes, carrying the index. -/
def indexOfAux : List Nat → Nat → Nat → Int
  | [], _, _ => -1
  | b :: rest, target, i => if b = target then (i : Int) else indexOfAux rest target (i + 1)

/-- Go `indexOf`: position of a byte in the alphabet, `-1` when absent. -/
def indexOf (b : Nat) : Int := indexOfAux alphaBytes b 0

/-- Go conversion `uint64(i)` of an `int` value: reduction modulo `2^64`
(so `uint64(-1) = 2^64 - 1`). -/
def toUInt64 (i : Int) : Nat := (i % (W64 : Int)).toNat

/-- One iteration of Go `Decode`'s loop: `num = num*base; num += uint64(indexOf(byte(char)))`,
both operations wrapping in `uint64`. -/
def decodeStep (num : Nat) (c : Char) : Nat :=
  (num * base % W64 + toUInt64 (indexOf (byteOf c))) % W64

/-- Go `Decode`: fold the step over the string's runes starting from 0. -/
def Decode (s : List Char) : Nat := s.foldl decodeStep 0

end UrlShortener

namespace UrlShortener

/-! ## Encoder lemmas -/

theorem base_eq_62 : base = 62 := rfl

theorem encodeAux_zero : encodeAux 0 = [] := by
  rw [encodeAux]
  rfl

theorem encodeAux_pos (n : Nat) (h : n ≠ 0) :
    encodeAux n = encodeAux (n / base) ++ [alphaChars.getD (n % base) ' '] := by
  rw [encodeAux]
  simp [h]

theorem toUInt64_of_lt (d : Nat) (h : d < W64) : toUInt64 d = d := by
  unfold toUInt64
  rw [Int.emod_eq_of_lt (by positivity) (by exact_mod_cast h)]
  simp

/-- Scanning the alphabet for the byte of the alphabet's `d`-th character
recovers `d`: the 62 characters are pairwise distinct. -/
theorem indexOf_digit : ∀ d, d < base → toUInt64 (indexOf (byteOf (alphaChars.getD d ' '))) = d := by
  decide

/-- Folding the decode step over `encodeAux n` starting from `acc` recomputes
`acc * 62 ^ digits + n`, provided that value fits in `uint64` (so the modular
reductions in the step are the identity). -/
theorem foldl_decodeStep_encodeAux :
    ∀ n acc : Nat, acc * base ^ (encodeAux n).length + n < W64 →
      List.foldl decodeStep acc (encodeAux n) = acc * base ^ (encodeAux n).length + n := by
  intro n
  induction n using Nat.strong_induction_on with
  | _ n ih =>
    intro acc hlt
    by_cases h0 : n = 0
    · subst h0
      simp [encodeAux_zero]
    · have hrec := encodeAux_pos n h0
      have hdiv : n / base < n := Nat.div_lt_self (Nat.pos_of_ne_zero h0) (by decide)
      set m := n / base with hm
      set d := n % base with hd
      set L := (encodeAux m).length with hL
      have hlen : (encodeAux n).length = L + 1 := by
        rw [hrec]; simp
      -- the inner value after consuming all but the last digit
      have hmono : acc * base ^ L + m ≤ acc * base ^ (L + 1) + n := by
        have h1 : acc * base ^ L ≤ acc * base ^ (L + 1) :=
          Nat.mul_le_mul_left acc (Nat.pow_le_pow_right (by decide) (Nat.le_succ L))
        have h2 : m ≤ n := Nat.div_le_self n base
        omega
      have hih : List.foldl decodeStep acc (encodeAux m) = acc * base ^ L + m := by
        apply ih m hdiv acc
        rw [← hL]
        calc acc * base ^ L + m ≤ acc * base ^ (L + 1) + n := hmono
        _ < W64 := by rw [hlen] at hlt; exact hlt
      set v := acc * base ^ L + m with hv
      have hsplit : n = base * m + d := (Nat.div_add_mod n base).symm
      have hval : v * base + d = acc * base ^ (L + 1) + n := by
        rw [hv, hsplit]
        ring
      have hfit : v * base + d < W64 := by
        rw [hval]; rw [hlen] at hlt; exact hlt
      have hdlt : d < base := Nat.mod_lt n (by decide)
      have hstep : decodeStep v (alphaChars.getD d ' ') = v * base + d := by
        unfold decodeStep
        rw [indexOf_digit d hdlt]
        rw [Nat.mod_eq_of_lt (by omega : v * base < W64)]
        rw [Nat.mod_eq_of_lt hfit]
      rw [hrec, List.foldl_append, hih]
      simp only [List.foldl_cons, List.foldl_nil, List.length_append, List.length_cons,
        List.length_nil, hstep]
      rw [hval, ← hL]

/-- C1. For every `n < 62 ^ 10`, `Decode (Encode n) = n`: the base62 encoder and
decoder form an exact round-trip inverse pair over the fixed 62-character
alphabet (digits, then lowercase, then uppercase, alphabet position = digit
value, most-significant digit first). -/
theorem encode_decode_roundtrip (n : Nat) (h : n < 62 ^ 10) : Decode (Encode n) = n := by
  by_cases h0 : n = 0
  · subst h0
    decide
  · have hW : n < W64 := by
      calc n < 62 ^ 10 := h
      _ < W64 := by norm_num [W64]
    unfold Decode Encode
    simp only [h0, if_false]
    have := foldl_decodeStep_encodeAux n 0 (by simpa using hW)
    simpa using this

/-- Witness for C1 at the concrete input 123456789 (the repository's own
"realistic ID" test vector). -/
theorem encode_decode_roundtrip_witness :
    123456789 < 62 ^ 10 ∧ Decode (Encode 123456789) = 123456789 :=
  ⟨by norm_num, encode_decode_roundtrip 123456789 (by norm_num)⟩

/-- C8. Decoding a string with a character outside the 62-character alphabet is
NOT rejected: `indexOf` returns the negative sentinel `-1`, which `Decode`
silently converts through `uint64` into `2 ^ 64 - 1` and adds into the result.
Evaluated at the failing input `"!"`. -/
theorem decode_out_of_alphabet_placeholder :
    indexOf (byteOf '!') = -1 ∧ Decode ['!'] = 2 ^ 64 - 1 := by
  constructor
  · decide
  · decide

end UrlShortener

namespace UrlShortener

/-! ## Token-bucket rate limiter (internal/middleware ratelimit)

Timestamps are `Nat` (Go's `time.Now` carries a monotonic clock reading and
`Sub` uses it, so elapsed times are non-negative); durations are `Nat` in the
same unit. `tokens`, `rate` and `burst` are Go `int` (int64): every addition
and multiplication the source performs on them is reduced with `wrap64`, the
two's-complement wrap into `[-2^63, 2^63)`, so refill products and sums that
overflow int64 in Go (wrapping negative or to zero) do so in the model too.
The token decrement is guarded by `0 < tokens` and cannot wrap. -/

structure RLConfig where
  rate : Int
  burst : Int
  rlInterval : Nat
  rlCleanup : Nat
  deriving DecidableEq, Repr

structure RLClient where
  tokens : Int
  lastCheck : Nat
  deriving DecidableEq, Repr

/-- Two's-complement wrap of Go int64 arithmetic into `[-2^63, 2^63)`. -/
def wrap64 (i : Int) : Int := (i + 2 ^ 63) % 2 ^ 64 - 2 ^ 63

/-- The per-client body of Go `Allow`: a missing entry gets a full bucket minus
the current request and is admitted; otherwise lazily refill
`int(elapsed / interval) * rate` tokens (capped at `burst`, updating
`lastCheck` only when something was added) and admit iff a token remains.
The `int` product and the `tokens + tokensToAdd` sum wrap at int64. -/
def allowClient (cfg : RLConfig) (c? : Option RLClient) (now : Nat) : Bool × RLClient :=
  match c? with
  | none => (true, { tokens := wrap64 (cfg.burst - 1), lastCheck := now })
  | some c =>
    let elapsed : Nat := now - c.lastCheck
    let tokensToAdd : Int := wrap64 ((elapsed / cfg.rlInterval : Nat) * cfg.rate)
    let c' : RLClient :=
      if 0 < tokensToAdd then
        { tokens := min (wrap64 (c.tokens + tokensToAdd)) cfg.burst, lastCheck := now }
      else c
    if 0 < c'.tokens then (true, { c' with tokens := c'.tokens - 1 })
    else (false, c')

/-- The limiter's shared client table (Go `map[string]*client`). -/
def Table : Type := String → Option RLClient

def emptyTable : Table := fun _ => none

def Table.update (m : Table) (ip : String) (c : RLClient) : Table :=
  fun k => if k = ip then some c else m k

/-- Go `Allow`: look up the caller's entry, run the token-bucket step, store
the updated entry back in the table. -/
def Allow (cfg : RLConfig) (m : Table) (ip : String) (now : Nat) : Bool × Table :=
  let r := allowClient cfg (m ip) now
  (r.1, m.update ip r.2)

/-- Run a sequence of `Allow` calls against the shared table, collecting the
admission decisions. -/
def runTable (cfg : RLConfig) : Table → List (String × Nat) → List Bool × Table
  | m, [] => ([], m)
  | m, (ip, t) :: calls =>
    let r := Allow cfg m ip t
    let rest := runTable cfg r.2 calls
    (r.1 :: rest.1, rest.2)

/-- Run a sequence of calls for one fixed client, tracking only that client's
entry (Go stores the updated entry in the map, so the next call sees it). -/
def runClient (cfg : RLConfig) : Option RLClient → List Nat → List Bool × Option RLClient
  | c?, [] => ([], c?)
  | c?, t :: ts =>
    let r := allowClient cfg c? t
    let rest := runClient cfg (some r.2) ts
    (r.1 :: rest.1, rest.2)

/-- One pass of Go `cleanupLoop`'s body at time `now`: delete every entry whose
`lastCheck` is strictly before `now - cleanup`. -/
def cleanupSweep (cfg : RLConfig) (m : Table) (now : Nat) : Table :=
  fun ip =>
    match m ip with
    | some c => if c.lastCheck < now - cfg.rlCleanup then none else some c
    | none => none

/-- The spec's bucket invariant: every stored token count lies in `[0, burst]`. -/
def TableInv (cfg : RLConfig) (m : Table) : Prop :=
  ∀ ip c, m ip = some c → 0 ≤ c.tokens ∧ c.tokens ≤ cfg.burst

/-- Configurations whose refill arithmetic cannot overflow Go int64: positive
interval, non-negative rate, positive burst, and even the largest
int64-representable idle period refills fewer than `2^63 - burst` tokens.
The default configuration (rate 10, burst 20, interval 1s, cleanup 5min,
durations in nanoseconds) satisfies this comfortably. -/
def RLConfig.SafeArith (cfg : RLConfig) : Prop :=
  0 < cfg.rlInterval ∧ 0 ≤ cfg.rate ∧ 1 ≤ cfg.burst ∧
  cfg.burst + cfg.rate * (((2 ^ 63 - 1) / cfg.rlInterval : Nat) : Int) < 2 ^ 63

end UrlShortener

namespace UrlShortener

/-! ## Rate limiter lemmas -/

theorem wrap64_eq (i : Int) (h1 : -(2 ^ 63) ≤ i) (h2 : i < 2 ^ 63) : wrap64 i = i := by
  unfold wrap64
  rw [Int.emod_eq_of_lt (by omega) (by omega)]
  omega

theorem wrap64_zero : wrap64 0 = 0 := by decide

theorem allowClient_none (cfg : RLConfig) (now : Nat) :
    allowClient cfg none now =
      (true, { tokens := wrap64 (cfg.burst - 1), lastCheck := now }) := rfl

/-- Within the current interval (`elapsed < interval`) no tokens are added and
`lastCheck` is untouched: the call just spends a token if one remains. -/
theorem allowClient_window (cfg : RLConfig) (c : RLClient) (now : Nat)
    (h : now - c.lastCheck < cfg.rlInterval) :
    allowClient cfg (some c) now =
      if 0 < c.tokens then (true, { c with tokens := c.tokens - 1 }) else (false, c) := by
  unfold allowClient
  have h0 : (now - c.lastCheck) / cfg.rlInterval = 0 := Nat.div_eq_of_lt h
  simp [h0, wrap64_zero]

theorem runClient_nil (cfg : RLConfig) (c? : Option RLClient) :
    runClient cfg c? [] = ([], c?) := rfl

theorem runClient_cons (cfg : RLConfig) (c? : Option RLClient) (t : Nat) (ts : List Nat) :
    runClient cfg c? (t :: ts) =
      ((allowClient cfg c? t).1 :: (runClient cfg (some (allowClient cfg c? t).2) ts).1,
       (runClient cfg (some (allowClient cfg c? t).2) ts).2) := rfl

theorem runClient_append (cfg : RLConfig) (c? : Option RLClient) (xs ys : List Nat) :
    runClient cfg c? (xs ++ ys) =
      ((runClient cfg c? xs).1 ++ (runClient cfg (runClient cfg c? xs).2 ys).1,
       (runClient cfg (runClient cfg c? xs).2 ys).2) := by
  induction xs generalizing c? with
  | nil => simp [runClient_nil]
  | cons t ts ih =>
    simp only [List.cons_append, runClient_cons, ih]

/-- Spending phase: starting from `k ≥ |ts|` tokens with all call times inside
the interval that began at `lastCheck`, every call is admitted and each spends
exactly one token; `lastCheck` never moves. -/
theorem runClient_spend (cfg : RLConfig) :
    ∀ (ts : List Nat) (k : Int) (t0 : Nat), 0 < cfg.rlInterval →
      (∀ t ∈ ts, t < t0 + cfg.rlInterval) → (ts.length : Int) ≤ k →
      runClient cfg (some { tokens := k, lastCheck := t0 }) ts =
        (List.replicate ts.length true, some { tokens := k - ts.length, lastCheck := t0 }) := by
  intro ts
  induction ts with
  | nil => intro k t0 _ _ _; simp [runClient_nil]
  | cons t ts ih =>
    intro k t0 hI hwin hk
    have hw : t - t0 < cfg.rlInterval := by
      have := hwin t (by simp)
      omega
    have hpos : 0 < k := by
      have := hk
      simp at this
      omega
    rw [runClient_cons, allowClient_window cfg _ t hw]
    simp only [hpos, if_pos]
    have hrest := ih (k - 1) t0 hI (fun u hu => hwin u (by simp [hu])) (by simp at hk ⊢; omega)
    simp only [hrest, List.length_cons, List.replicate_succ, Prod.mk.injEq, List.cons.injEq,
      Option.some.injEq, RLClient.mk.injEq, true_and, and_true]
    omega

/-- Denial at an empty bucket: inside the interval with zero tokens the call is
rejected and the entry is unchanged. -/
theorem allowClient_deny (cfg : RLConfig) (t0 now : Nat)
    (h : now - t0 < cfg.rlInterval) :
    allowClient cfg (some { tokens := 0, lastCheck := t0 }) now =
      (false, { tokens := 0, lastCheck := t0 }) := by
  rw [allowClient_window cfg _ now h]
  simp

end UrlShortener

namespace UrlShortener

/-- Refill branch of `Allow`: when the (wrapped) `tokensToAdd` is positive the
bucket is topped up with the wrapped sum (capped at burst), `lastCheck` moves
to `now`, then the admission check runs. -/
theorem allowClient_refill_pos (cfg : RLConfig) (c : RLClient) (now : Nat)
    (hpos : 0 < wrap64 ((((now - c.lastCheck) / cfg.rlInterval : Nat) : Int) * cfg.rate)) :
    allowClient cfg (some c) now =
      if 0 < min (wrap64 (c.tokens +
            wrap64 ((((now - c.lastCheck) / cfg.rlInterval : Nat) : Int) * cfg.rate))) cfg.burst
      then (true,
        { tokens := min (wrap64 (c.tokens +
              wrap64 ((((now - c.lastCheck) / cfg.rlInterval : Nat) : Int) * cfg.rate))) cfg.burst - 1,
          lastCheck := now })
      else (false,
        { tokens := min (wrap64 (c.tokens +
              wrap64 ((((now - c.lastCheck) / cfg.rlInterval : Nat) : Int) * cfg.rate))) cfg.burst,
          lastCheck := now }) := by
  unfold allowClient
  simp only [hpos, if_pos]

/-- No-refill branch of `Allow`: when the (wrapped) `tokensToAdd` is not
positive the entry is left as is and the admission check just spends a token
if available. -/
theorem allowClient_norefill (cfg : RLConfig) (c : RLClient) (now : Nat)
    (hneg : ¬ 0 < wrap64 ((((now - c.lastCheck) / cfg.rlInterval : Nat) : Int) * cfg.rate)) :
    allowClient cfg (some c) now =
      if 0 < c.tokens then (true, { c with tokens := c.tokens - 1 }) else (false, c) := by
  unfold allowClient
  simp only [hneg, if_neg, if_false]

end UrlShortener

namespace UrlShortener

/-- The configuration of the spec's rate-limiter scenario: rate 10, burst 20
(`DefaultRateLimiterConfig`), an arbitrary positive interval; the cleanup
field plays no role in `Allow`. -/
def cfgRB (I : Nat) : RLConfig :=
  { rate := 10, burst := 20, rlInterval := I, rlCleanup := 300 }

/-- `DefaultRateLimiterConfig` with durations in nanoseconds: rate 10,
burst 20, interval 1s, cleanup window 5 minutes. -/
def cfgDefault : RLConfig :=
  { rate := 10, burst := 20, rlInterval := 1000000000, rlCleanup := 300000000000 }

/-- One full interval (but less than two) after `lastCheck`, a call on an empty
bucket under rate 10 / burst 20 refills exactly 10 tokens — far below any
int64 overflow — is admitted, and re-stamps `lastCheck`. -/
theorem allowClient_refill_once_rb (I t0 u : Nat) (hI : 0 < I)
    (h1 : t0 + I ≤ u) (h2 : u < t0 + 2 * I) :
    allowClient (cfgRB I) (some { tokens := 0, lastCheck := t0 }) u =
      (true, { tokens := 9, lastCheck := u }) := by
  have hq : (u - t0) / I = 1 := by
    have ha : 1 ≤ (u - t0) / I := (Nat.one_le_div_iff hI).mpr (by omega)
    have hb : (u - t0) / I < 2 := by
      rw [Nat.div_lt_iff_lt_mul hI]
      omega
    omega
  unfold allowClient
  simp only [cfgRB]
  rw [hq]
  norm_num [wrap64]

/-- C2. With rate 10 and burst 20, from an empty table: the first 20 calls of a
single client inside one interval are all admitted, the 21st is rejected, and
the next 10 calls, made once one full interval has elapsed (inside the
following interval, where the lazy refill adds exactly `rate` tokens and
cannot overflow), are all admitted again. -/
theorem rate_limit_burst_scenario (I t0 t21 u1 : Nat) (ts us1 : List Nat)
    (hI : 0 < I) (hts : ts.length = 19) (hus : us1.length = 9)
    (hwin : ∀ t ∈ ts, t < t0 + I) (hw21 : t21 < t0 + I)
    (hu1a : t0 + I ≤ u1) (hu1b : u1 < t0 + 2 * I)
    (hafter : ∀ u ∈ us1, t0 + I ≤ u ∧ u < t0 + 2 * I) :
    (runClient (cfgRB I) none (t0 :: (ts ++ t21 :: u1 :: us1))).1 =
      List.replicate 20 true ++ false :: List.replicate 10 true := by
  have hI' : 0 < (cfgRB I).rlInterval := by simpa [cfgRB] using hI
  -- call 1: fresh client, admitted with 19 tokens stored
  rw [runClient_cons, allowClient_none]
  have hb : ({ tokens := wrap64 ((cfgRB I).burst - 1), lastCheck := t0 } : RLClient) =
      { tokens := 19, lastCheck := t0 } := by
    simp only [cfgRB]
    norm_num [wrap64]
  rw [hb]
  -- calls 2-20: spend the remaining 19 tokens
  have hphase1 := runClient_spend (cfgRB I) ts 19 t0 hI'
    (by simpa [cfgRB] using hwin) (by rw [hts]; norm_num)
  rw [runClient_append, hphase1]
  simp only [hts]
  have h0 : (19 : Int) - (19 : Nat) = 0 := by norm_num
  rw [h0]
  -- call 21: inside the interval with zero tokens: rejected, entry unchanged
  have hdeny := allowClient_deny (cfgRB I) t0 t21
    (by simpa [cfgRB] using (by omega : t21 - t0 < I))
  rw [runClient_cons, hdeny]
  -- call 22: one full interval has passed: refill 10, spend 1
  rw [runClient_cons, allowClient_refill_once_rb I t0 u1 hI hu1a hu1b]
  -- calls 23-31: spend the remaining 9 tokens inside the new interval
  have hphase3 := runClient_spend (cfgRB I) us1 9 u1 hI'
    (by
      intro t htm
      have h := hafter t htm
      have hIe : (cfgRB I).rlInterval = I := rfl
      omega)
    (by rw [hus]; norm_num)
  rw [hphase3, hus]
  simp [List.replicate_succ]

end UrlShortener

namespace UrlShortener

/-- Witness for C2: interval 5, the 21 burst-phase calls at time 0, the 10
post-interval calls at time 5. -/
theorem rate_limit_burst_scenario_witness :
    (runClient (cfgRB 5) none (0 :: (List.replicate 19 0 ++ 0 :: 5 :: List.replicate 9 5))).1 =
      List.replicate 20 true ++ false :: List.replicate 10 true :=
  rate_limit_burst_scenario 5 0 0 5 (List.replicate 19 0) (List.replicate 9 5)
    (by norm_num) (by simp) (by simp)
    (by intro t ht; rw [List.eq_of_mem_replicate ht]; norm_num)
    (by norm_num) (by norm_num) (by norm_num)
    (by intro u hu; rw [List.eq_of_mem_replicate hu]; norm_num)

/-- Counterexample to C2 as stated (arbitrary elapsed time after the interval):
with a 1-unit interval (e.g. `RATE_LIMIT_INTERVAL=1ns`), calls made after the
largest int64-representable idle time compute a refill product
`(2^63 - 1) * 10` that wraps negative in Go int64 arithmetic, so no tokens are
added and all 10 post-interval calls are denied. -/
theorem rate_limit_burst_scenario_counterexample :
    (runClient (cfgRB 1) none
        (0 :: (List.replicate 19 0 ++ 0 :: List.replicate 10 9223372036854775807))).1 =
      List.replicate 20 true ++ false :: List.replicate 10 false := by
  decide

/-- A single `Allow` step keeps a stored token count inside `[0, burst]` for
every overflow-safe configuration, given an int64-representable call time and
an in-range incoming entry. -/
theorem allowClient_inv (cfg : RLConfig) (hsafe : cfg.SafeArith) (c? : Option RLClient)
    (now : Nat) (hnow : now < 2 ^ 63)
    (hc : ∀ c, c? = some c → 0 ≤ c.tokens ∧ c.tokens ≤ cfg.burst) :
    0 ≤ (allowClient cfg c? now).2.tokens ∧ (allowClient cfg c? now).2.tokens ≤ cfg.burst := by
  obtain ⟨hI, hr, hb, hs⟩ := hsafe
  have hQ : (0 : Int) ≤ cfg.rate * (((2 ^ 63 - 1) / cfg.rlInterval : Nat) : Int) :=
    mul_nonneg hr (by positivity)
  match c? with
  | none =>
    rw [allowClient_none]
    simp only
    rw [wrap64_eq (cfg.burst - 1) (by omega) (by omega)]
    omega
  | some c =>
    obtain ⟨h1, h2⟩ := hc c rfl
    have hqle : (now - c.lastCheck) / cfg.rlInterval ≤ (2 ^ 63 - 1) / cfg.rlInterval := by
      apply Nat.div_le_div_right
      omega
    have hprod_le : (((now - c.lastCheck) / cfg.rlInterval : Nat) : Int) * cfg.rate ≤
        cfg.rate * (((2 ^ 63 - 1) / cfg.rlInterval : Nat) : Int) := by
      rw [mul_comm]
      exact mul_le_mul_of_nonneg_left (by exact_mod_cast hqle) hr
    have hprod_nonneg : (0 : Int) ≤
        (((now - c.lastCheck) / cfg.rlInterval : Nat) : Int) * cfg.rate :=
      mul_nonneg (by positivity) hr
    have hwrap : wrap64 ((((now - c.lastCheck) / cfg.rlInterval : Nat) : Int) * cfg.rate) =
        (((now - c.lastCheck) / cfg.rlInterval : Nat) : Int) * cfg.rate :=
      wrap64_eq _ (by omega) (by omega)
    by_cases hpos : 0 < wrap64 ((((now - c.lastCheck) / cfg.rlInterval : Nat) : Int) * cfg.rate)
    · rw [allowClient_refill_pos cfg c now hpos]
      rw [hwrap] at hpos
      have hsum : wrap64 (c.tokens +
          wrap64 ((((now - c.lastCheck) / cfg.rlInterval : Nat) : Int) * cfg.rate)) =
          c.tokens + (((now - c.lastCheck) / cfg.rlInterval : Nat) : Int) * cfg.rate := by
        rw [hwrap]
        exact wrap64_eq _ (by omega) (by omega)
      rw [hsum]
      set M := min (c.tokens + (((now - c.lastCheck) / cfg.rlInterval : Nat) : Int) * cfg.rate)
        cfg.burst with hM
      have hMpos : 0 < M := lt_min (by omega) (by omega)
      have hMhigh : M ≤ cfg.burst := min_le_right _ _
      rw [if_pos hMpos]
      simp only
      omega
    · rw [allowClient_norefill cfg c now hpos]
      by_cases ht : 0 < c.tokens
      · rw [if_pos ht]
        simp only
        omega
      · rw [if_neg ht]
        exact ⟨h1, h2⟩

/-- `Allow` preserves the bucket invariant across the whole table. -/
theorem Allow_inv (cfg : RLConfig) (hsafe : cfg.SafeArith) (m : Table) (ip : String)
    (now : Nat) (hnow : now < 2 ^ 63) (hm : TableInv cfg m) :
    TableInv cfg (Allow cfg m ip now).2 := by
  intro k c hk
  unfold Allow Table.update at hk
  simp only at hk
  by_cases hkip : k = ip
  · rw [if_pos hkip] at hk
    obtain ⟨rfl⟩ : (allowClient cfg (m ip) now).2 = c := by
      injection hk
    exact allowClient_inv cfg hsafe (m ip) now hnow (fun c₀ h₀ => hm ip c₀ h₀)
  · rw [if_neg hkip] at hk
    exact hm k c hk

theorem runTable_nil (cfg : RLConfig) (m : Table) : runTable cfg m [] = ([], m) := rfl

theorem runTable_cons (cfg : RLConfig) (m : Table) (ip : String) (t : Nat)
    (calls : List (String × Nat)) :
    runTable cfg m ((ip, t) :: calls) =
      ((Allow cfg m ip t).1 :: (runTable cfg (Allow cfg m ip t).2 calls).1,
       (runTable cfg (Allow cfg m ip t).2 calls).2) := rfl

theorem runTable_inv (cfg : RLConfig) (hsafe : cfg.SafeArith) :
    ∀ (calls : List (String × Nat)) (m : Table), (∀ c ∈ calls, c.2 < 2 ^ 63) →
      TableInv cfg m → TableInv cfg (runTable cfg m calls).2 := by
  intro calls
  induction calls with
  | nil => intro m _ hm; simpa [runTable_nil] using hm
  | cons c calls ih =>
    intro m htimes hm
    obtain ⟨ip, t⟩ := c
    rw [runTable_cons]
    exact ih _ (fun u hu => htimes u (by simp [hu]))
      (Allow_inv cfg hsafe m ip t (htimes (ip, t) (by simp)) hm)

/-- C3 (amended: the configuration must have `burst ≥ 1` and refill arithmetic
that cannot overflow int64 — non-negative rate with
`burst + rate * ((2^63 - 1) / interval) < 2^63`, as the default configuration
comfortably has — and call timestamps must be int64-representable). Under
these conditions every stored token count stays in `[0, burst]` after each
call of every sequence from the empty table, and a key absent from the table
is admitted on first sight and stored as a full bucket minus the admitted
request (`burst - 1` tokens). Violated both by `burst = 0` (see the
counterexample) and by loader-accepted overflowing rates such as
`RATE_LIMIT_RATE = 2^63 - 1`, where the refill sum wraps negative. -/
theorem bucket_invariant (cfg : RLConfig) (hsafe : cfg.SafeArith)
    (calls : List (String × Nat)) (htimes : ∀ c ∈ calls, c.2 < 2 ^ 63) :
    TableInv cfg (runTable cfg emptyTable calls).2 ∧
    (∀ (m : Table) (ip : String) (now : Nat), now < 2 ^ 63 → m ip = none →
      (Allow cfg m ip now).1 = true ∧
      (Allow cfg m ip now).2 ip = some { tokens := cfg.burst - 1, lastCheck := now }) := by
  constructor
  · exact runTable_inv cfg hsafe calls emptyTable htimes
      (fun ip c h => by simp [emptyTable] at h)
  · intro m ip now hnow hnone
    obtain ⟨hI, hr, hb, hs⟩ := hsafe
    have hQ : (0 : Int) ≤ cfg.rate * (((2 ^ 63 - 1) / cfg.rlInterval : Nat) : Int) :=
      mul_nonneg hr (by positivity)
    unfold Allow Table.update
    rw [hnone, allowClient_none]
    refine ⟨rfl, ?_⟩
    simp [wrap64_eq (cfg.burst - 1) (by omega) (by omega)]

/-- Witness for C3 at the default configuration (rate 10, burst 20, interval
1s, cleanup 5min, in nanoseconds) and a two-call trace. -/
theorem bucket_invariant_witness :
    TableInv cfgDefault (runTable cfgDefault emptyTable [("a", 0), ("a", 1)]).2 ∧
    (∀ (m : Table) (ip : String) (now : Nat), now < 2 ^ 63 → m ip = none →
      (Allow cfgDefault m ip now).1 = true ∧
      (Allow cfgDefault m ip now).2 ip =
        some { tokens := cfgDefault.burst - 1, lastCheck := now }) :=
  bucket_invariant cfgDefault (by refine ⟨by norm_num [cfgDefault], by norm_num [cfgDefault],
    by norm_num [cfgDefault], by norm_num [cfgDefault]⟩) [("a", 0), ("a", 1)] (by decide)

/-- A configuration with `burst = 0` (settable through `RATE_LIMIT_BURST=0`;
nothing in `Config.Validate` forbids it). -/
def cfgZeroBurst : RLConfig := { rate := 10, burst := 0, rlInterval := 1, rlCleanup := 300 }

/-- Counterexample to C3 as stated (for *every* configured burst): with
`burst = 0` the very first call of a fresh client is admitted and stores
`-1` tokens, violating the non-negativity invariant. -/
theorem bucket_invariant_counterexample :
    (Allow cfgZeroBurst emptyTable "client" 0).1 = true ∧
    (Allow cfgZeroBurst emptyTable "client" 0).2 "client" =
      some { tokens := -1, lastCheck := 0 } ∧
    ¬ TableInv cfgZeroBurst (Allow cfgZeroBurst emptyTable "client" 0).2 := by
  refine ⟨rfl, by decide, ?_⟩
  intro h
  obtain ⟨h0, -⟩ := h "client" { tokens := -1, lastCheck := 0 } (by decide)
  norm_num at h0

end UrlShortener

namespace UrlShortener

/-- C4 (amended: the configuration must be overflow-safe — `SafeArith`, as the
defaults are — and its refill over any idle period longer than the cleanup
window must fill the bucket, i.e. `burst ≤ ((cleanup + 1) / interval) * rate`;
call times int64-representable, the entry's token count within `[0, burst]`).
For an entry idle beyond the cleanup window — exactly the entries
`cleanupSweep` deletes — the next `Allow` call then produces the same decision
and the same stored entry whether or not the entry was deleted first, so all
later decisions agree as well. -/
theorem cleanup_removal_transparent (cfg : RLConfig) (tok : Int) (lc now : Nat)
    (hsafe : cfg.SafeArith) (ht0 : 0 ≤ tok) (ht1 : tok ≤ cfg.burst)
    (hnow : now < 2 ^ 63)
    (hidle : lc < now - cfg.rlCleanup)
    (hrefill : cfg.burst ≤ (((cfg.rlCleanup + 1) / cfg.rlInterval : Nat) : Int) * cfg.rate) :
    allowClient cfg (some { tokens := tok, lastCheck := lc }) now =
      allowClient cfg none now := by
  obtain ⟨hI, hr, hb, hs⟩ := hsafe
  have helapsed : cfg.rlCleanup + 1 ≤ now - lc := by omega
  have helapsed2 : now - lc ≤ 2 ^ 63 - 1 := by omega
  have hq1 : (cfg.rlCleanup + 1) / cfg.rlInterval ≤ (now - lc) / cfg.rlInterval :=
    Nat.div_le_div_right helapsed
  have hq2 : (now - lc) / cfg.rlInterval ≤ (2 ^ 63 - 1) / cfg.rlInterval :=
    Nat.div_le_div_right helapsed2
  have hq1i : ((((cfg.rlCleanup + 1) / cfg.rlInterval : Nat)) : Int) ≤
      (((now - lc) / cfg.rlInterval : Nat) : Int) := by exact_mod_cast hq1
  have hq2i : (((now - lc) / cfg.rlInterval : Nat) : Int) ≤
      (((2 ^ 63 - 1) / cfg.rlInterval : Nat) : Int) := by exact_mod_cast hq2
  have hprod_ge : cfg.burst ≤ (((now - lc) / cfg.rlInterval : Nat) : Int) * cfg.rate :=
    le_trans hrefill (mul_le_mul_of_nonneg_right hq1i hr)
  have hprod_le : (((now - lc) / cfg.rlInterval : Nat) : Int) * cfg.rate ≤
      cfg.rate * (((2 ^ 63 - 1) / cfg.rlInterval : Nat) : Int) := by
    rw [mul_comm]
    exact mul_le_mul_of_nonneg_left hq2i hr
  have hwrap : wrap64 ((((now - lc) / cfg.rlInterval : Nat) : Int) * cfg.rate) =
      (((now - lc) / cfg.rlInterval : Nat) : Int) * cfg.rate :=
    wrap64_eq _ (by omega) (by omega)
  have hpos : 0 < wrap64 ((((now - lc) / cfg.rlInterval : Nat) : Int) * cfg.rate) := by
    rw [hwrap]
    omega
  rw [allowClient_none, allowClient_refill_pos cfg { tokens := tok, lastCheck := lc } now
    (by simpa using hpos)]
  simp only
  rw [hwrap]
  have hsum : wrap64 (tok + (((now - lc) / cfg.rlInterval : Nat) : Int) * cfg.rate) =
      tok + (((now - lc) / cfg.rlInterval : Nat) : Int) * cfg.rate :=
    wrap64_eq _ (by omega) (by omega)
  rw [hsum]
  have hM : min (tok + (((now - lc) / cfg.rlInterval : Nat) : Int) * cfg.rate) cfg.burst =
      cfg.burst := min_eq_right (by omega)
  rw [hM, if_pos (by omega : (0 : Int) < cfg.burst)]
  rw [wrap64_eq (cfg.burst - 1) (by omega) (by omega)]

/-- Witness for C4's amended theorem at the default configuration (durations
in nanoseconds): idle client `⟨0 tokens, lastCheck 0⟩`, call at t = 400s
(beyond the 300s cleanup window). -/
theorem cleanup_removal_transparent_witness :
    allowClient cfgDefault (some { tokens := 0, lastCheck := 0 }) 400000000000 =
      allowClient cfgDefault none 400000000000 :=
  cleanup_removal_transparent cfgDefault 0 0 400000000000
    (by refine ⟨by norm_num [cfgDefault], by norm_num [cfgDefault],
      by norm_num [cfgDefault], by norm_num [cfgDefault]⟩)
    (by norm_num) (by norm_num [cfgDefault]) (by norm_num)
    (by norm_num [cfgDefault]) (by norm_num [cfgDefault])

/-- A legal configuration whose refill over the cleanup window does NOT fill
the bucket: rate 1, burst 3, interval 1, cleanup window 1. -/
def cfgSlow : RLConfig := { rate := 1, burst := 3, rlInterval := 1, rlCleanup := 1 }

/-- Counterexample to C4 as stated (for *every* configuration): under `cfgSlow`
the client `"c"` drains its bucket at time 0 and is idle beyond the cleanup
window at time 2 (so the sweep would delete it). If the sweep ran, the three
calls at time 2 yield `[true, true, true]`; if it did not, they yield
`[true, true, false]` — the deletion changed the third decision. -/
theorem cleanup_removal_counterexample :
    (runTable cfgSlow emptyTable [("c", 0), ("c", 0), ("c", 0)]).2 "c" =
      some { tokens := 0, lastCheck := 0 } ∧
    (0 : Nat) < 2 - cfgSlow.rlCleanup ∧
    cleanupSweep cfgSlow (runTable cfgSlow emptyTable [("c", 0), ("c", 0), ("c", 0)]).2 2 "c" =
      none ∧
    (runTable cfgSlow
        (cleanupSweep cfgSlow (runTable cfgSlow emptyTable [("c", 0), ("c", 0), ("c", 0)]).2 2)
        [("c", 2), ("c", 2), ("c", 2)]).1 = [true, true, true] ∧
    (runTable cfgSlow (runTable cfgSlow emptyTable [("c", 0), ("c", 0), ("c", 0)]).2
        [("c", 2), ("c", 2), ("c", 2)]).1 = [true, true, false] := by
  refine ⟨by decide, by decide, by decide, by decide, by decide⟩

end UrlShortener

namespace UrlShortener

/-! ## Read routing (internal/repository `getReadDB`)

The shared round-robin counter is Go `uint32`: `atomic.AddUint32` returns the
incremented value, wrapping modulo `2 ^ 32`. -/

def W32 : Nat := 2 ^ 32

/-- Go `getReadDB`: with no replicas return the primary; otherwise advance the
shared counter by one (wrapping in `uint32`) and select the replica at the new
counter value modulo the replica count. Returns the selected database and the
new counter. -/
def getReadDB {α : Type} (primary : α) (replicas : List α) (rr : Nat) : α × Nat :=
  if h : replicas.length = 0 then (primary, rr)
  else
    let idx := (rr + 1) % W32
    (replicas.get ⟨idx % replicas.length, Nat.mod_lt _ (Nat.pos_of_ne_zero h)⟩, idx)

/-- `n` consecutive sequential reads from one caller, collecting the selected
databases and threading the shared counter. -/
def readRun {α : Type} (primary : α) (replicas : List α) : Nat → Nat → List α × Nat
  | 0, rr => ([], rr)
  | n + 1, rr =>
    let r := getReadDB primary replicas rr
    let rest := readRun primary replicas n r.2
    (r.1 :: rest.1, rest.2)

/-- C5. Read routing is round-robin: with at least one replica every read
advances the shared counter by one and selects `replicas[counter % count]`;
9 consecutive sequential reads over 3 replicas (fresh counter) hit each
replica exactly 3 times; with zero replicas every read goes to the primary
and the counter is untouched. -/
theorem round_robin_read_routing :
    (∀ (α : Type) (primary : α) (replicas : List α) (rr : Nat), replicas ≠ [] →
      (getReadDB primary replicas rr).2 = (rr + 1) % W32 ∧
      (getReadDB primary replicas rr).1 =
        replicas.getD (((rr + 1) % W32) % replicas.length) primary) ∧
    ((readRun 0 [1, 2, 3] 9 0).1.count 1 = 3 ∧
     (readRun 0 [1, 2, 3] 9 0).1.count 2 = 3 ∧
     (readRun 0 [1, 2, 3] 9 0).1.count 3 = 3) ∧
    (∀ (α : Type) (primary : α) (rr : Nat), getReadDB primary [] rr = (primary, rr)) := by
  refine ⟨?_, by decide, ?_⟩
  · intro α primary replicas rr hne
    have hlen : replicas.length ≠ 0 := by simpa using hne
    unfold getReadDB
    rw [dif_neg hlen]
    refine ⟨rfl, ?_⟩
    have hmod : ((rr + 1) % W32) % replicas.length < replicas.length :=
      Nat.mod_lt _ (Nat.pos_of_ne_zero hlen)
    simp [List.getD, List.getElem?_eq_getElem hmod]
  · intro α primary rr
    rfl

/-- Witness for C5 at two replicas and counter 7: the read advances the counter
to 8 and selects replica `8 % 2 = 0`. -/
theorem round_robin_read_routing_witness :
    (getReadDB 0 [5, 6] 7).2 = 8 ∧ (getReadDB 0 [5, 6] 7).1 = 5 := by
  have h := round_robin_read_routing.1 Nat 0 [5, 6] 7 (by decide)
  refine ⟨?_, ?_⟩
  · rw [h.1]
    decide
  · rw [h.2]
    decide

end UrlShortener

namespace UrlShortener

/-! ## Storage gateway (internal/repository) and shortening service
(internal/service)

The database is modelled as the `urls` table plus the engine clock used for
the `created_at DEFAULT CURRENT_TIMESTAMP` column. Reads (`SELECT`) leave the
state untouched; writes return the new state. -/

structure URLRec where
  id : Nat
  shortCode : String
  originalURL : String
  createdAt : Nat
  clickCount : Nat
  deriving DecidableEq, Repr

structure DB where
  rows : List URLRec
  clock : Nat
  deriving DecidableEq, Repr

def emptyDB : DB := { rows := [], clock := 0 }

inductive RepoErr
  | notFound
  | uniqueViolation
  deriving DecidableEq, Repr

/-- Go `GetByShortCode` (`SELECT ... WHERE short_code = ?`): the matching row
(unique by constraint) or `ErrNotFound`. A pure read, replica-routable. -/
def GetByShortCode (s : DB) (code : String) : Except RepoErr URLRec :=
  match s.rows.find? (fun r => r.shortCode = code) with
  | some r => .ok r
  | none => .error .notFound

def maxId (rows : List URLRec) : Nat := rows.foldl (fun a r => max a r.id) 0

/-- Go `Create` (`INSERT INTO urls (short_code, original_url)`): the UNIQUE
constraint on `short_code` rejects duplicates; the engine assigns the
auto-increment identifier (modelled as `max id + 1`) and stamps `created_at`. -/
def Create (s : DB) (code origURL : String) : Except RepoErr URLRec × DB :=
  if s.rows.any (fun r => r.shortCode = code) then (.error .uniqueViolation, s)
  else
    let row : URLRec :=
      { id := maxId s.rows + 1, shortCode := code, originalURL := origURL,
        createdAt := s.clock, clickCount := 0 }
    (.ok row, { s with rows := s.rows ++ [row] })

/-- Go `GetNextID` (`SELECT MAX(id)`): 1 when the table is empty (NULL
maximum), otherwise the maximum identifier plus one. -/
def GetNextID (s : DB) : Nat :=
  match s.rows with
  | [] => 1
  | _ => maxId s.rows + 1

/-- Go `IncrementClickCount` (`UPDATE urls SET click_count = click_count + 1
WHERE short_code = ?`). -/
def IncrementClickCount (s : DB) (code : String) : DB :=
  { s with rows := s.rows.map (fun r =>
      if r.shortCode = code then { r with clickCount := r.clickCount + 1 } else r) }

inductive SvcErr
  | errEmptyURL
  | errInvalidURL
  | errAliasExists
  | errInvalidAlias
  | errURLNotFound
  | storage (e : RepoErr)
  deriving DecidableEq, Repr

structure CreateURLRequest where
  url : String
  customAlias : String
  deriving DecidableEq, Repr

structure CreateURLResponse where
  shortURL : String
  originalURL : String
  deriving DecidableEq, Repr

/-- Scheme characters allowed after the leading letter (Go `net/url`). -/
def isSchemeChar (c : Char) : Bool :=
  c.isAlpha || c.isDigit || c == '+' || c == '-' || c == '.'

/-- Split a character list at the first colon. -/
def splitAtColon : List Char → Option (List Char × List Char)
  | [] => none
  | c :: rest =>
    if c = ':' then some ([], rest)
    else
      match splitAtColon rest with
      | some (pre, post) => some (c :: pre, post)
      | none => none

def validSchemeName : List Char → Bool
  | [] => false
  | c :: rest => c.isAlpha && rest.all isSchemeChar

/-- Host component: present only after `//`, up to the next `/`, `?` or `#`. -/
def hostOf (rest : List Char) : List Char :=
  match rest with
  | '/' :: '/' :: r => r.takeWhile (fun c => c ≠ '/' && c ≠ '?' && c ≠ '#')
  | _ => []

structure ParsedURL where
  scheme : String
  host : String
  deriving DecidableEq, Repr

/-- Modelled from the Go standard library `net/url.Parse` (external to this
repository), restricted to the two components the service inspects: the scheme
(the prefix before the first `:` when it is a well-formed scheme name,
lowercased as `Parse` does) and the host (the `//`-introduced authority up to
the next delimiter). Control characters make `Parse` fail; other inputs parse
with empty scheme/host as Go yields for relative references. -/
def urlParse (raw : String) : Option ParsedURL :=
  if raw.toList.any (fun c => c.toNat < 32 || c.toNat == 127) then none
  else
    match splitAtColon raw.toList with
    | some (pre, post) =>
      if validSchemeName pre then
        some { scheme := (pre.map Char.toLower).asString, host := (hostOf post).asString }
      else some { scheme := "", host := (hostOf raw.toList).asString }
    | none => some { scheme := "", host := (hostOf raw.toList).asString }

def isSpaceChar (c : Char) : Bool :=
  c == ' ' || c == '\t' || c == '\n' || c == '\r'

/-- Go `strings.TrimSpace` (ASCII whitespace; the Unicode space classes do not
affect the validator's emptiness check for the inputs considered here). -/
def trimSpace (s : String) : String :=
  (((s.toList.dropWhile isSpaceChar).reverse.dropWhile isSpaceChar).reverse).asString

/-- Go service `validateURL`: empty after trimming, unparsable, missing scheme
or host, or a non-http(s) scheme are all rejected. -/
def validateURL (rawURL : String) : Option SvcErr :=
  if trimSpace rawURL = "" then some .errEmptyURL
  else
    match urlParse rawURL with
    | none => some .errInvalidURL
    | some p =>
      if p.scheme = "" || p.host = "" then some .errInvalidURL
      else if p.scheme ≠ "http" && p.scheme ≠ "https" then some .errInvalidURL
      else none

/-- Go `isValidAliasChar`: ASCII letters, digits, hyphen, underscore (rune
comparisons are code-point comparisons). -/
def isValidAliasChar (c : Char) : Bool :=
  ('a'.toNat ≤ c.toNat && c.toNat ≤ 'z'.toNat) ||
  (('A'.toNat ≤ c.toNat && c.toNat ≤ 'Z'.toNat) ||
  (('0'.toNat ≤ c.toNat && c.toNat ≤ '9'.toNat) ||
  ((c == '-') || (c == '_'))))

/-- UTF-8 encoded size of a rune, as Go's string representation stores it. -/
def csize (c : Char) : Nat :=
  if c.toNat < 0x80 then 1
  else if c.toNat < 0x800 then 2
  else if c.toNat < 0x10000 then 3
  else 4

/-- Go `len` on a string: the UTF-8 byte length. -/
def byteLen (s : String) : Nat := (s.toList.map csize).sum

/-- Go service `validateAlias`: byte length in `[3, 20]` and every rune in the
allowed class. (No reserved-word check here — that lives in the validator's
`ValidateCustomCode`.) -/
def validateAlias (a : String) : Option SvcErr :=
  if byteLen a < 3 ∨ byteLen a > 20 then some .errInvalidAlias
  else if a.toList.all isValidAliasChar then none
  else some .errInvalidAlias

/-- Step 2 of Go `CreateShortURL` (determine the short code): with a custom
alias, validate it and look it up — found means `ErrAliasExists`, not-found
means use the alias, any other error propagates; without one, encode the next
identifier from the gateway. -/
def determineCode (s : DB) (req : CreateURLRequest) : Except SvcErr String :=
  if req.customAlias ≠ "" then
    match validateAlias req.customAlias with
    | some e => .error e
    | none =>
      match GetByShortCode s req.customAlias with
      | .ok _ => .error .errAliasExists
      | .error .notFound => .ok req.customAlias
      | .error e => .error (.storage e)
  else .ok (Encode (GetNextID s)).asString

/-- Go `CreateShortURL`: validate the URL (step 1), determine the short code
(step 2), persist (step 3), and answer with the configured base URL joined to
the code (step 4). -/
def CreateShortURL (baseURL : String) (s : DB) (req : CreateURLRequest) :
    Except SvcErr CreateURLResponse × DB :=
  match validateURL req.url with
  | some e => (.error e, s)
  | none =>
    match determineCode s req with
    | .error e => (.error e, s)
    | .ok code =>
      match Create s code req.url with
      | (.error e, s') => (.error (.storage e), s')
      | (.ok _, s') =>
        (.ok { shortURL := baseURL ++ "/" ++ code, originalURL := req.url }, s')

/-- Go `Resolve`: look up the code (distinguishing not-found), then trigger the
fire-and-forget click increment and return the original URL. -/
def Resolve (s : DB) (code : String) : Except SvcErr String × DB :=
  match GetByShortCode s code with
  | .error .notFound => (.error .errURLNotFound, s)
  | .error e => (.error (.storage e), s)
  | .ok r => (.ok r.originalURL, IncrementClickCount s code)

/-- Go `GetURLStats`: a single read-only lookup; no write is issued. -/
def GetURLStats (s : DB) (code : String) : Except SvcErr URLRec × DB :=
  match GetByShortCode s code with
  | .error .notFound => (.error .errURLNotFound, s)
  | .error e => (.error (.storage e), s)
  | .ok r => (.ok r, s)

end UrlShortener

namespace UrlShortener

/-! ## Shortening service lemmas -/

theorem getByShortCode_notFound_iff (s : DB) (code : String) :
    GetByShortCode s code = .error .notFound ↔
      s.rows.find? (fun r => r.shortCode = code) = none := by
  unfold GetByShortCode
  cases h : s.rows.find? (fun r => r.shortCode = code) <;> simp

/-- When a non-empty custom alias leads `determineCode` to succeed, the code is
the alias itself, the alias passed validation, and the lookup found nothing. -/
theorem determineCode_custom_ok (s : DB) (req : CreateURLRequest) (code : String)
    (halias : req.customAlias ≠ "") (h : determineCode s req = .ok code) :
    code = req.customAlias ∧ validateAlias req.customAlias = none ∧
      GetByShortCode s req.customAlias = .error .notFound := by
  unfold determineCode at h
  rw [if_pos halias] at h
  cases hva : validateAlias req.customAlias <;> rw [hva] at h
  · cases hget : GetByShortCode s req.customAlias <;> rw [hget] at h
    case ok r => simp at h
    case error e =>
      cases e
      case notFound =>
        refine ⟨?_, rfl, rfl⟩
        injection h with h
        exact h.symm
      case uniqueViolation => simp at h
  · simp at h

/-- A create whose code determination ends in the alias-taken conflict returns
the conflict and leaves the database untouched. -/
theorem CreateShortURL_conflict (baseURL : String) (s : DB) (req : CreateURLRequest)
    (hurl : validateURL req.url = none)
    (hdc : determineCode s req = .error .errAliasExists) :
    CreateShortURL baseURL s req = (.error .errAliasExists, s) := by
  unfold CreateShortURL
  rw [hurl, hdc]

/-- C6. Creating with a custom alias that is already stored fails with the
distinct `ErrAliasExists` conflict, and the failed second create leaves the
database — in particular the first record with all its fields — unchanged. -/
theorem duplicate_alias_conflict (baseURL : String) (s : DB) (req1 req2 : CreateURLRequest)
    (halias : req1.customAlias ≠ "")
    (hsame : req2.customAlias = req1.customAlias)
    (hok : ∃ resp, (CreateShortURL baseURL s req1).1 = .ok resp)
    (hurl2 : validateURL req2.url = none) :
    (CreateShortURL baseURL (CreateShortURL baseURL s req1).2 req2).1 =
      .error .errAliasExists ∧
    (CreateShortURL baseURL (CreateShortURL baseURL s req1).2 req2).2 =
      (CreateShortURL baseURL s req1).2 := by
  obtain ⟨resp, hr⟩ := hok
  -- step 1 of the first create must have passed
  have hval1 : validateURL req1.url = none := by
    cases hval : validateURL req1.url with
    | none => rfl
    | some e =>
      unfold CreateShortURL at hr
      rw [hval] at hr
      simp at hr
  -- step 2 of the first create must have yielded the alias
  obtain ⟨code1, hdc1⟩ : ∃ code, determineCode s req1 = .ok code := by
    cases hdc : determineCode s req1 with
    | ok c => exact ⟨c, rfl⟩
    | error e =>
      unfold CreateShortURL at hr
      rw [hval1, hdc] at hr
      simp at hr
  obtain ⟨hcode1, hva1, hget1⟩ := determineCode_custom_ok s req1 code1 halias hdc1
  subst hcode1
  -- the alias was free, so step 3 (the insert) succeeded and appended the row
  have hfind1 : s.rows.find? (fun r => r.shortCode = req1.customAlias) = none :=
    (getByShortCode_notFound_iff s req1.customAlias).mp hget1
  have hany1 : s.rows.any (fun r => r.shortCode = req1.customAlias) = false := by
    rw [List.any_eq_false]
    exact fun x hx => List.find?_eq_none.mp hfind1 x hx
  have hs1 : (CreateShortURL baseURL s req1).2 =
      { rows := s.rows ++
          [{ id := maxId s.rows + 1, shortCode := req1.customAlias,
             originalURL := req1.url, createdAt := s.clock, clickCount := 0 }],
        clock := s.clock } := by
    unfold CreateShortURL Create
    rw [hval1, hdc1]
    simp only [hany1, Bool.false_eq_true, if_false]
  -- the second create's lookup now finds the stored alias row
  have hget2 : GetByShortCode (CreateShortURL baseURL s req1).2 req2.customAlias =
      .ok { id := maxId s.rows + 1, shortCode := req1.customAlias,
            originalURL := req1.url, createdAt := s.clock, clickCount := 0 } := by
    unfold GetByShortCode
    rw [hs1, hsame]
    simp only [List.find?_append, hfind1, Option.none_or, List.find?_cons, List.find?_nil]
    simp
  have hdc2 : determineCode (CreateShortURL baseURL s req1).2 req2 =
      .error .errAliasExists := by
    unfold determineCode
    rw [if_pos (by rw [hsame]; exact halias)]
    rw [hsame, hva1, ← hsame, hget2]
  have hdone := CreateShortURL_conflict baseURL (CreateShortURL baseURL s req1).2 req2
    hurl2 hdc2
  rw [hdone]
  exact ⟨rfl, rfl⟩

/-- Witness for C6: the repository test scenario — create `"my-link"` for
`https://example.com`, then attempt the same alias for `https://other.com`. -/
theorem duplicate_alias_conflict_witness :
    (CreateShortURL "http://localhost:8080"
        (CreateShortURL "http://localhost:8080" emptyDB
          { url := "https://example.com", customAlias := "my-link" }).2
        { url := "https://other.com", customAlias := "my-link" }).1 =
      .error .errAliasExists ∧
    (CreateShortURL "http://localhost:8080"
        (CreateShortURL "http://localhost:8080" emptyDB
          { url := "https://example.com", customAlias := "my-link" }).2
        { url := "https://other.com", customAlias := "my-link" }).2 =
      (CreateShortURL "http://localhost:8080" emptyDB
        { url := "https://example.com", customAlias := "my-link" }).2 :=
  duplicate_alias_conflict "http://localhost:8080" emptyDB
    { url := "https://example.com", customAlias := "my-link" }
    { url := "https://other.com", customAlias := "my-link" }
    (by decide) rfl
    ⟨{ shortURL := "http://localhost:8080/my-link", originalURL := "https://example.com" },
      by rfl⟩
    (by decide)

end UrlShortener

namespace UrlShortener

/-- C10. The stats operation is read-only: `GetURLStats` issues only the
`SELECT` lookup, so the database — every record's click count and all other
fields — is identical before and after the call; only `Resolve` triggers the
click-count increment (exactly on a successful lookup). -/
theorem stats_read_only (s : DB) (code : String) :
    (GetURLStats s code).2 = s ∧
    (∀ e, GetByShortCode s code = .error e → (Resolve s code).2 = s) ∧
    (∀ rec, GetByShortCode s code = .ok rec →
      (Resolve s code).2 = IncrementClickCount s code) := by
  refine ⟨?_, ?_, ?_⟩
  · unfold GetURLStats
    cases h : GetByShortCode s code with
    | ok r => rfl
    | error e => cases e <;> rfl
  · intro e he
    unfold Resolve
    rw [he]
    cases e <;> rfl
  · intro rec hrec
    unfold Resolve
    rw [hrec]

/-- Witness for C10 on the concrete one-row database built by a create. -/
theorem stats_read_only_witness :
    (GetURLStats (CreateShortURL "http://localhost:8080" emptyDB
        { url := "https://example.com", customAlias := "my-link" }).2 "my-link").2 =
      (CreateShortURL "http://localhost:8080" emptyDB
        { url := "https://example.com", customAlias := "my-link" }).2 :=
  (stats_read_only (CreateShortURL "http://localhost:8080" emptyDB
    { url := "https://example.com", customAlias := "my-link" }).2 "my-link").1

/-- The interleaving flagged in spec §5: two no-alias create requests both
execute "read next identifier, derive code" against the same state before
either inserts (the service's `GetNextID`-then-`Create` is not atomic). -/
def racyGeneratedCreates (s : DB) (urlA urlB : String) :
    Except RepoErr URLRec × Except RepoErr URLRec × DB :=
  let codeA := (Encode (GetNextID s)).asString
  let codeB := (Encode (GetNextID s)).asString
  let ra := Create s codeA urlA
  let rb := Create ra.2 codeB urlB
  (ra.1, rb.1, rb.2)

/-- C9 evaluated at the failing interleaving: from an empty database, two valid
no-alias creates that both read `GetNextID` before either insert derive the
same generated code; the first insert succeeds and the second hits the
`short_code` unique constraint instead of succeeding with a distinct code. -/
theorem generated_code_race :
    validateURL "https://a.example/1" = none ∧
    validateURL "https://b.example/2" = none ∧
    determineCode emptyDB { url := "https://a.example/1", customAlias := "" } =
      determineCode emptyDB { url := "https://b.example/2", customAlias := "" } ∧
    (∃ rec, (racyGeneratedCreates emptyDB "https://a.example/1" "https://b.example/2").1 =
      .ok rec ∧ rec.shortCode = (Encode (GetNextID emptyDB)).asString) ∧
    (racyGeneratedCreates emptyDB "https://a.example/1" "https://b.example/2").2.1 =
      .error .uniqueViolation := by
  refine ⟨by decide, by decide, rfl, ?_, ?_⟩
  · have hrec : (racyGeneratedCreates emptyDB "https://a.example/1" "https://b.example/2").1 =
        .ok { id := 1, shortCode := (Encode (GetNextID emptyDB)).asString,
              originalURL := "https://a.example/1", createdAt := 0, clickCount := 0 } := by
      unfold racyGeneratedCreates Create
      simp [emptyDB, maxId]
    exact ⟨_, hrec, rfl⟩
  · unfold racyGeneratedCreates Create
    simp [emptyDB]

end UrlShortener

namespace UrlShortener

/-! ## Validator (internal/validator) -/

def reservedWords : List String := ["api", "admin", "health", "shorten", "stats", "static"]

/-- ASCII lowering of a character (`A`–`Z` to `a`–`z`). -/
def asciiLower (c : Char) : Char :=
  if 'A'.toNat ≤ c.toNat && c.toNat ≤ 'Z'.toNat then Char.ofNat (c.toNat + 32) else c

/-- Go `strings.EqualFold` restricted to ASCII simple folding. The reserved
words are all ASCII, and the only Unicode simple-fold exceptions (long s,
Kelvin sign) are rejected by the character class in any case, so the
validator's accepted set is unchanged. -/
def equalFold (a b : String) : Bool :=
  a.toList.map asciiLower == b.toList.map asciiLower

inductive AppErr
  | missingField (f : String)
  | badRequest (m : String)
  | invalidURLMsg (m : String)
  deriving DecidableEq, Repr

/-- Go validator `ValidateShortCode`: non-empty, byte length in `[3, 20]` (the
message text says "between 4 and 20" while the comparison uses 3 — the
inconsistency flagged in spec §9), then the regex `^[a-zA-Z0-9_-]+$`. -/
def ValidateShortCode (code : String) : Option AppErr :=
  if code = "" then some (.missingField "code")
  else if byteLen code < 3 ∨ byteLen code > 20 then
    some (.badRequest "Short code must be between 4 and 20 characters")
  else if code.toList.all isValidAliasChar then none
  else some (.badRequest "Short code can only contain letters, numbers, hyphens, and underscores")

/-- Go validator `ValidateCustomCode`: the empty alias is allowed (the field is
optional), reserved words are rejected case-insensitively, then the
short-code format check runs. -/
def ValidateCustomCode (code : String) : Option AppErr :=
  if code = "" then none
  else if reservedWords.any (fun r => equalFold code r) then
    some (.badRequest "This short code is reserved and cannot be used")
  else ValidateShortCode code

/-- The validation a supplied custom alias passes on the creation path: the
handler's `ValidateCustomCode` followed by the service's `validateAlias`. -/
def aliasAccepted (code : String) : Bool :=
  (ValidateCustomCode code).isNone && (validateAlias code).isNone

end UrlShortener

namespace UrlShortener

/-- Every character of the allowed alias class is ASCII, hence one UTF-8 byte. -/
theorem csize_valid (c : Char) (h : isValidAliasChar c = true) : csize c = 1 := by
  unfold isValidAliasChar at h
  simp only [Bool.or_eq_true, Bool.and_eq_true, decide_eq_true_eq, beq_iff_eq] at h
  unfold csize
  rcases h with ⟨h1, h2⟩ | ⟨h1, h2⟩ | ⟨h1, h2⟩ | h | h
  · rw [if_pos (by have hz : 'z'.toNat = 122 := rfl; omega)]
  · rw [if_pos (by have hz : 'Z'.toNat = 90 := rfl; omega)]
  · rw [if_pos (by have hz : '9'.toNat = 57 := rfl; omega)]
  · subst h; rfl
  · subst h; rfl

/-- A string of allowed alias characters has byte length equal to its rune
count. -/
theorem byteLen_eq_length (l : List Char) (h : l.all isValidAliasChar = true) :
    (l.map csize).sum = l.length := by
  induction l with
  | nil => simp
  | cons c cs ih =>
    simp only [List.all_cons, Bool.and_eq_true] at h
    simp only [List.map_cons, List.sum_cons, List.length_cons, csize_valid c h.1, ih h.2]
    omega

theorem validateAlias_isNone_iff (a : String) :
    (validateAlias a).isNone = true ↔
      (3 ≤ a.toList.length ∧ a.toList.length ≤ 20 ∧
        a.toList.all isValidAliasChar = true) := by
  unfold validateAlias
  by_cases hall : a.toList.all isValidAliasChar = true
  · have hlen : byteLen a = a.toList.length := byteLen_eq_length a.toList hall
    by_cases hb : byteLen a < 3 ∨ byteLen a > 20
    · rw [if_pos hb]
      simp only [Option.isNone_some, Bool.false_eq_true, false_iff]
      rintro ⟨h1, h2, -⟩
      omega
    · rw [if_neg hb, if_pos hall]
      simp only [Option.isNone_none, true_iff]
      push_neg at hb
      exact ⟨by omega, by omega, hall⟩
  · constructor
    · intro h
      exfalso
      by_cases hb : byteLen a < 3 ∨ byteLen a > 20
      · rw [if_pos hb] at h
        simp at h
      · rw [if_neg hb, if_neg hall] at h
        simp at h
    · rintro ⟨-, -, h3⟩
      exact absurd h3 hall

theorem validateShortCode_isNone_iff (code : String) (hne : code ≠ "") :
    (ValidateShortCode code).isNone = true ↔
      (3 ≤ code.toList.length ∧ code.toList.length ≤ 20 ∧
        code.toList.all isValidAliasChar = true) := by
  unfold ValidateShortCode
  rw [if_neg hne]
  by_cases hall : code.toList.all isValidAliasChar = true
  · have hlen : byteLen code = code.toList.length := byteLen_eq_length code.toList hall
    by_cases hb : byteLen code < 3 ∨ byteLen code > 20
    · rw [if_pos hb]
      simp only [Option.isNone_some, Bool.false_eq_true, false_iff]
      rintro ⟨h1, h2, -⟩
      omega
    · rw [if_neg hb, if_pos hall]
      simp only [Option.isNone_none, true_iff]
      push_neg at hb
      exact ⟨by omega, by omega, hall⟩
  · constructor
    · intro h
      exfalso
      by_cases hb : byteLen code < 3 ∨ byteLen code > 20
      · rw [if_pos hb] at h
        simp at h
      · rw [if_neg hb, if_neg hall] at h
        simp at h
    · rintro ⟨-, -, h3⟩
      exact absurd h3 hall

theorem validateCustomCode_isNone_iff (code : String) (hne : code ≠ "") :
    (ValidateCustomCode code).isNone = true ↔
      ((∀ r ∈ reservedWords, equalFold code r = false) ∧
        (ValidateShortCode code).isNone = true) := by
  unfold ValidateCustomCode
  rw [if_neg hne]
  by_cases hres : reservedWords.any (fun r => equalFold code r) = true
  · rw [if_pos hres]
    obtain ⟨r, hr, hf⟩ := List.any_eq_true.mp hres
    simp only [Option.isNone_some, Bool.false_eq_true, false_iff]
    rintro ⟨hforall, -⟩
    have := hforall r hr
    simp [this] at hf
  · rw [if_neg hres]
    have hforall : ∀ r ∈ reservedWords, equalFold code r = false := by
      intro r hr
      by_contra h
      exact hres (List.any_eq_true.mpr ⟨r, hr, by simpa using h⟩)
    constructor
    · intro h
      exact ⟨hforall, h⟩
    · rintro ⟨-, h⟩
      exact h

/-- C7. The alias pipeline (`ValidateCustomCode` then the service's
`validateAlias`) accepts exactly the strings of 3 to 20 characters drawn from
ASCII letters, digits, hyphen and underscore that do not match a reserved word
case-insensitively; `"ab"` fails, 3- and 20-character aliases pass, and
`"admin"` fails in every letter case. -/
theorem alias_validation_characterization :
    (∀ code : String, aliasAccepted code = true ↔
      (3 ≤ code.toList.length ∧ code.toList.length ≤ 20 ∧
       code.toList.all isValidAliasChar = true ∧
       ∀ r ∈ reservedWords, equalFold code r = false)) ∧
    aliasAccepted "ab" = false ∧
    aliasAccepted "abc" = true ∧
    aliasAccepted "abcdefghij1234567890" = true ∧
    aliasAccepted "admin" = false ∧
    aliasAccepted "ADMIN" = false ∧
    aliasAccepted "AdMiN" = false := by
  refine ⟨?_, by decide, by decide, by decide, by decide, by decide, by decide⟩
  intro code
  unfold aliasAccepted
  by_cases hne : code = ""
  · subst hne
    decide
  · rw [Bool.and_eq_true, validateCustomCode_isNone_iff code hne,
      validateShortCode_isNone_iff code hne, validateAlias_isNone_iff code]
    constructor
    · rintro ⟨⟨hres, -⟩, hva⟩
      exact ⟨hva.1, hva.2.1, hva.2.2, hres⟩
    · rintro ⟨h1, h2, h3, h4⟩
      exact ⟨⟨h4, h1, h2, h3⟩, h1, h2, h3⟩

end UrlShortener

namespace UrlShortener

/-- Witness for C7 at a concrete alias. -/
theorem alias_validation_characterization_witness :
    aliasAccepted "my-link" = true :=
  (alias_validation_characterization.1 "my-link").mpr (by decide)

end UrlShortener
